import Mathlib

/-!
Verification of the canonical CBOR `Value` model and its total-ordering
comparator, embedded from `src/value/mod.rs` of the MoSal/cbor crate.

Modelling conventions:
* `u64` payloads are `Nat`, `i64`/`i128` payloads are `Int`; range constraints
  of the machine types appear in the constructibility predicate `wf`.
* `f64` payloads are represented by their 64-bit pattern (a `Nat`); the
  comparator never inspects them except through the canonical encoding.
* `String`/`Vec<u8>` payloads are byte lists; Rust compares strings by their
  UTF-8 bytes and `len()` is the byte length, so this is faithful.
* Rust panics (`unreachable!()`, `.expect(..)`, and `i128::abs` overflow)
  are modelled as `Except.error`; a value of type `Except Err Ordering`
  is `.ok o` exactly when the Rust comparison returns the ordering `o`.
* The external serializer `crate::to_vec` (module `ser`) and the `BTreeMap`
  container are not part of the analysed source; they are modelled from the
  specification and marked as such in their doc comments.
-/

set_option maxRecDepth 1000000

namespace CborSpec

/-- Faults of the embedded computations: reaching the hidden enum variant
(`unreachable!()`), overflow of `i128::abs` on `i128::MIN`, and serializer
failure (`EncodeError`, which the comparator's `expect` turns into a panic). -/
inductive Err where
  | hiddenVariant : Err
  | absOverflow : Err
  | encodeError : Err
deriving DecidableEq, Repr

mutual
/-- The `Value` enum of `src/value/mod.rs`: Null, Bool, UnsignedInteger(u64),
SignedInteger(i64), LargeSignedInteger(i128), Float(f64), Bytes, Text, Array,
Map and the hidden extension variant `__Hidden`. `Array`/`Map` payloads use the
mutually defined list types so that all recursion is structural. -/
inductive Value where
  | Null : Value
  | Bool (b : Bool) : Value
  | UnsignedInteger (n : Nat) : Value
  | SignedInteger (i : Int) : Value
  | LargeSignedInteger (i : Int) : Value
  | Float (bits : Nat) : Value
  | Bytes (bs : List Nat) : Value
  | Text (bs : List Nat) : Value
  | Array (xs : ValueList) : Value
  | Map (ps : ValuePairList) : Value
  | Hidden : Value

/-- A `Vec<Value>` (payload of `Value::Array`). -/
inductive ValueList where
  | nil : ValueList
  | cons (v : Value) (rest : ValueList) : ValueList

/-- The entry sequence of a `BTreeMap<Value, Value>` (payload of `Value::Map`),
in iteration order. -/
inductive ValuePairList where
  | nil : ValuePairList
  | cons (k v : Value) (rest : ValuePairList) : ValuePairList
end

/-- Number of elements of an array payload (`Vec::len`). -/
def ValueList.length : ValueList → Nat
  | .nil => 0
  | .cons _ rest => rest.length + 1

/-- Number of entries of a map payload (`BTreeMap::len`). -/
def ValuePairList.length : ValuePairList → Nat
  | .nil => 0
  | .cons _ _ rest => rest.length + 1

/-- Rust `Ord::cmp` on natural numbers (`u64`/`usize` comparisons). -/
def ordCmpNat (m n : Nat) : Ordering :=
  if m < n then .lt else if m = n then .eq else .gt

/-- Rust `Ord::cmp` on integers (`i128` comparisons). -/
def ordCmpInt (x y : Int) : Ordering :=
  if x < y then .lt else if x = y then .eq else .gt

/-- Rust `Ord::cmp` on byte sequences: lexicographic, a strict prefix is
smaller. -/
def bytesCmp : List Nat → List Nat → Ordering
  | [], [] => .eq
  | [], _ :: _ => .lt
  | _ :: _, [] => .gt
  | a :: s, b :: t =>
    match ordCmpNat a b with
    | .eq => bytesCmp s t
    | o => o

/-- `i128::abs`: overflows (panics) exactly on `i128::MIN = -2^127`. -/
def absI128 (x : Int) : Except Err Int :=
  if x = -(2 ^ 127) then .error .absOverflow else .ok |x|

/-- `xa.abs().cmp(&xb.abs())` on `i128` operands, left operand first. -/
def absCmpI128 (x y : Int) : Except Err Ordering :=
  match absI128 x, absI128 y with
  | .error e, _ => .error e
  | _, .error e => .error e
  | .ok p, .ok q => .ok (ordCmpInt p q)

/-- `Value::major_type` from `src/value/mod.rs`: 0 for non-negative integers,
1 for negative integers, 2 bytes, 3 text, 4 arrays, 5 maps, 7 null/bool/float;
`unreachable!()` on the hidden variant. -/
def Value.major_type : Value → Except Err Nat
  | .Null => .ok 7
  | .Bool _ => .ok 7
  | .UnsignedInteger _ => .ok 0
  | .SignedInteger v => if 0 ≤ v then .ok 0 else .ok 1
  | .LargeSignedInteger v => if 0 ≤ v then .ok 0 else .ok 1
  | .Float _ => .ok 7
  | .Bytes _ => .ok 2
  | .Text _ => .ok 3
  | .Array _ => .ok 4
  | .Map _ => .ok 5
  | .Hidden => .error .hiddenVariant

/-- Big-endian encoding of `n` on `k` bytes (helper of the modelled
serializer). -/
def beBytes : Nat → Nat → List Nat
  | 0, _ => []
  | k + 1, n => beBytes k (n / 256) ++ [n % 256]

/-- Modelled from the spec: the minimal-length CBOR head for major type `maj`
and argument `n` (canonical/preferred serialization of RFC 7049 bis). -/
def encodeHead (maj n : Nat) : List Nat :=
  if n < 24 then [32 * maj + n]
  else if n < 256 then [32 * maj + 24, n]
  else if n < 65536 then (32 * maj + 25) :: beBytes 2 n
  else if n < 4294967296 then (32 * maj + 26) :: beBytes 4 n
  else (32 * maj + 27) :: beBytes 8 n

/-- Modelled from the spec: canonical encoding of an integer value; fails with
`EncodeError` outside the representable range `[-2^64, 2^64)` (the spec:
values below the format's minimum cause an error at serialization time). -/
def encodeInt (i : Int) : Except Err (List Nat) :=
  if 0 ≤ i then
    if i < 2 ^ 64 then .ok (encodeHead 0 i.toNat) else .error .encodeError
  else
    if -(2 ^ 64) ≤ i then .ok (encodeHead 1 (-1 - i).toNat)
    else .error .encodeError

mutual
/-- Modelled from the spec: the external serializer `crate::to_vec` (module
`ser`, not part of the analysed source). It is a deterministic canonical
encoder: it fails with `EncodeError` on integers outside the representable
range and refuses the hidden variant; floats are emitted as the 0xfb head
followed by the 8 bytes of their bit pattern. -/
def to_vec : Value → Except Err (List Nat)
  | .Null => .ok [246]
  | .Bool false => .ok [244]
  | .Bool true => .ok [245]
  | .UnsignedInteger n => encodeInt n
  | .SignedInteger i => encodeInt i
  | .LargeSignedInteger i => encodeInt i
  | .Float bits => .ok (251 :: beBytes 8 bits)
  | .Bytes bs => .ok (encodeHead 2 bs.length ++ bs)
  | .Text bs => .ok (encodeHead 3 bs.length ++ bs)
  | .Array xs =>
    match to_vecList xs with
    | .ok body => .ok (encodeHead 4 xs.length ++ body)
    | .error e => .error e
  | .Map ps =>
    match to_vecPairs ps with
    | .ok body => .ok (encodeHead 5 ps.length ++ body)
    | .error e => .error e
  | .Hidden => .error .encodeError

/-- Serialization of the elements of an array, in order. -/
def to_vecList : ValueList → Except Err (List Nat)
  | .nil => .ok []
  | .cons v rest =>
    match to_vec v with
    | .ok s =>
      match to_vecList rest with
      | .ok t => .ok (s ++ t)
      | .error e => .error e
    | .error e => .error e

/-- Serialization of the entries of a map, keys before values, in order. -/
def to_vecPairs : ValuePairList → Except Err (List Nat)
  | .nil => .ok []
  | .cons k v rest =>
    match to_vec k with
    | .ok s =>
      match to_vec v with
      | .ok t =>
        match to_vecPairs rest with
        | .ok u => .ok (s ++ t ++ u)
        | .error e => .error e
      | .error e => .error e
    | .error e => .error e
end

/-- The comparator's fallback `to_vec(a).expect(..).cmp(&to_vec(b).expect(..))`:
serialize both operands and compare the byte sequences lexicographically; a
serialization failure is a panic (modelled as `.error`), left operand first. -/
def serCmp (a b : Value) : Except Err Ordering :=
  match to_vec a, to_vec b with
  | .error e, _ => .error e
  | _, .error e => .error e
  | .ok s, .ok t => .ok (bytesCmp s t)

/-- `impl Ord for Value::cmp` from `src/value/mod.rs`:
1. smaller major type sorts first;
2. integers compare by magnitude (promoted to `i128` before `abs`);
3. byte/text/array/map payloads of different lengths compare by length;
4. equal-length byte/text payloads compare lexically;
5. every other pairing falls back to comparing serializations. -/
def Value.cmp (a b : Value) : Except Err Ordering :=
  match a.major_type, b.major_type with
  | .error e, _ => .error e
  | _, .error e => .error e
  | .ok ma, .ok mb =>
    if ma ≠ mb then .ok (ordCmpNat ma mb)
    else
      match a, b with
      | .UnsignedInteger x, .UnsignedInteger y => .ok (ordCmpNat x y)
      | .SignedInteger x, .SignedInteger y => absCmpI128 x y
      | .LargeSignedInteger x, .LargeSignedInteger y => absCmpI128 x y
      | .UnsignedInteger x, .SignedInteger y => absCmpI128 x y
      | .SignedInteger x, .UnsignedInteger y => absCmpI128 x y
      | .LargeSignedInteger x, .UnsignedInteger y => absCmpI128 x y
      | .UnsignedInteger x, .LargeSignedInteger y => absCmpI128 x y
      | .SignedInteger x, .LargeSignedInteger y => absCmpI128 x y
      | .LargeSignedInteger x, .SignedInteger y => absCmpI128 x y
      | .Bytes x, .Bytes y =>
        if x.length ≠ y.length then .ok (ordCmpNat x.length y.length)
        else .ok (bytesCmp x y)
      | .Text x, .Text y =>
        if x.length ≠ y.length then .ok (ordCmpNat x.length y.length)
        else .ok (bytesCmp x y)
      | .Array x, .Array y =>
        if x.length ≠ y.length then .ok (ordCmpNat x.length y.length)
        else serCmp (.Array x) (.Array y)
      | .Map x, .Map y =>
        if x.length ≠ y.length then .ok (ordCmpNat x.length y.length)
        else serCmp (.Map x) (.Map y)
      | x, y => serCmp x y

mutual
/-- Constructibility through the public API: payloads lie in the ranges of the
Rust machine types (`u64`, `i64`, `i128`, bytes) and the hidden variant does
not occur. -/
def wf : Value → Bool
  | .Null => true
  | .Bool _ => true
  | .UnsignedInteger n => decide (n < 2 ^ 64)
  | .SignedInteger i => decide (-(2 ^ 63) ≤ i ∧ i < 2 ^ 63)
  | .LargeSignedInteger i => decide (-(2 ^ 127) ≤ i ∧ i < 2 ^ 127)
  | .Float bits => decide (bits < 2 ^ 64)
  | .Bytes bs => bs.all (fun b => decide (b < 256))
  | .Text bs => bs.all (fun b => decide (b < 256))
  | .Array xs => wfList xs
  | .Map ps => wfPairs ps
  | .Hidden => false

/-- Constructibility of every element of an array payload. -/
def wfList : ValueList → Bool
  | .nil => true
  | .cons v rest => wf v && wfList rest

/-- Constructibility of every key and value of a map payload. -/
def wfPairs : ValuePairList → Bool
  | .nil => true
  | .cons k v rest => wf k && wf v && wfPairs rest
end

/-- Modelled from the spec's wording of the rank table: 0 = non-negative
integers, 1 = negative integers (sign, not variant tag, decides), 2 = byte
strings, 3 = text strings, 4 = arrays, 5 = maps, 7 = null/bool/float. The
hidden variant is outside the table and gets the junk rank 8. -/
def rankSpec : Value → Nat
  | .Null => 7
  | .Bool _ => 7
  | .UnsignedInteger _ => 0
  | .SignedInteger i => if 0 ≤ i then 0 else 1
  | .LargeSignedInteger i => if 0 ≤ i then 0 else 1
  | .Float _ => 7
  | .Bytes _ => 2
  | .Text _ => 3
  | .Array _ => 4
  | .Map _ => 5
  | .Hidden => 8

/-- `impl From<u8> for Value` (the `impl_from!` macro): lift an 8-bit unsigned
integer by widening it into the `UnsignedInteger` variant. -/
def from_u8 (n : Nat) : Value := .UnsignedInteger n

/-- Primary sort key used inside one major type: the magnitude for integers
(`i128::abs` after promotion), the length for byte/text/array/map payloads,
and 0 for null/bool/float. -/
def sub1? : Value → Except Err Int
  | .Null => .ok 0
  | .Bool _ => .ok 0
  | .UnsignedInteger n => .ok n
  | .SignedInteger i => absI128 i
  | .LargeSignedInteger i => absI128 i
  | .Float _ => .ok 0
  | .Bytes bs => .ok bs.length
  | .Text bs => .ok bs.length
  | .Array xs => .ok xs.length
  | .Map ps => .ok ps.length
  | .Hidden => .error .hiddenVariant

/-- Secondary sort key used when the primary keys coincide: the content for
byte/text payloads, the serialization for array/map/null/bool/float, and the
empty sequence for integers (equal magnitudes already mean equal). -/
def sub2? : Value → Except Err (List Nat)
  | .UnsignedInteger _ => .ok []
  | .SignedInteger _ => .ok []
  | .LargeSignedInteger _ => .ok []
  | .Bytes bs => .ok bs
  | .Text bs => .ok bs
  | v => to_vec v

/-- Comparison by primary keys `x`, `y` with fallback to the secondary keys
`sa`, `sb` when the primary keys coincide. -/
def chainCmp (x y : Int) (sa sb : Except Err (List Nat)) : Except Err Ordering :=
  if x ≠ y then .ok (ordCmpInt x y)
  else
    match sa, sb with
    | .error e, _ => .error e
    | _, .error e => .error e
    | .ok s, .ok t => .ok (bytesCmp s t)

/-- Reference shape of the comparator: lexicographic comparison of
`(major type, primary key, secondary key)`, evaluating only the components it
needs, left operand first. `Value.cmp` is proved extensionally equal to it. -/
def cmpSpec (a b : Value) : Except Err Ordering :=
  match a.major_type, b.major_type with
  | .error e, _ => .error e
  | _, .error e => .error e
  | .ok ma, .ok mb =>
    if ma ≠ mb then .ok (ordCmpNat ma mb)
    else
      match sub1? a, sub1? b with
      | .error e, _ => .error e
      | _, .error e => .error e
      | .ok x, .ok y => chainCmp x y (sub2? a) (sub2? b)

/-- Modelled from the spec: the `BTreeMap<Value, Value>` insertion semantics —
keys stay in ascending comparator order, inserting at an equal key overwrites
the stored value while keeping the stored key. A comparison fault while
locating the slot aborts the insertion. -/
def mapInsert (l : ValuePairList) (k v : Value) : Except Err ValuePairList :=
  match l with
  | .nil => .ok (.cons k v .nil)
  | .cons k' v' rest =>
    match Value.cmp k k' with
    | .ok .lt => .ok (.cons k v (.cons k' v' rest))
    | .ok .eq => .ok (.cons k' v rest)
    | .ok .gt =>
      match mapInsert rest k v with
      | .ok r => .ok (.cons k' v' r)
      | .error e => .error e
    | .error e => .error e

deriving instance DecidableEq for Except

/-- The canonical map invariant: consecutive keys are strictly ascending under
the comparator (hence pairwise distinct). -/
def sortedKeys : ValuePairList → Bool
  | .nil => true
  | .cons _ _ .nil => true
  | .cons k _ (.cons k' v' rest) =>
    decide (Value.cmp k k' = .ok .lt) && sortedKeys (.cons k' v' rest)

/-- An entry `(k, v)` occurs in the entry sequence. -/
def hasPair : ValuePairList → Value → Value → Prop
  | .nil, _, _ => False
  | .cons k' v' rest, k, v => (k = k' ∧ v = v') ∨ hasPair rest k v

/-- The keys of the entry sequence, in iteration order. -/
def keysOf : ValuePairList → List Value
  | .nil => []
  | .cons k _ rest => k :: keysOf rest

theorem ordCmpInt_lt_iff {x y : Int} : ordCmpInt x y = .lt ↔ x < y := by
  unfold ordCmpInt
  split_ifs with h1 h2 <;> simp <;> omega

theorem ordCmpInt_eq_iff {x y : Int} : ordCmpInt x y = .eq ↔ x = y := by
  unfold ordCmpInt
  split_ifs with h1 h2 <;> simp <;> omega

theorem ordCmpInt_gt_iff {x y : Int} : ordCmpInt x y = .gt ↔ y < x := by
  unfold ordCmpInt
  split_ifs with h1 h2 <;> simp <;> omega

theorem ordCmpInt_self (x : Int) : ordCmpInt x x = .eq := by
  simp [ordCmpInt]

theorem ordCmpInt_swap (x y : Int) : ordCmpInt y x = (ordCmpInt x y).swap := by
  unfold ordCmpInt
  split_ifs <;> simp [Ordering.swap] <;> omega

theorem ordCmpNat_eq_int (m n : Nat) : ordCmpNat m n = ordCmpInt m n := by
  unfold ordCmpNat ordCmpInt
  split_ifs <;> first | rfl | (exfalso; omega)

theorem ordCmpNat_self (m : Nat) : ordCmpNat m m = .eq := by
  simp [ordCmpNat]

theorem ordCmpNat_lt_iff {m n : Nat} : ordCmpNat m n = .lt ↔ m < n := by
  rw [ordCmpNat_eq_int, ordCmpInt_lt_iff]
  omega

theorem ordCmpNat_eq_iff {m n : Nat} : ordCmpNat m n = .eq ↔ m = n := by
  rw [ordCmpNat_eq_int, ordCmpInt_eq_iff]
  omega

theorem ordCmpNat_swap (m n : Nat) : ordCmpNat n m = (ordCmpNat m n).swap := by
  rw [ordCmpNat_eq_int, ordCmpNat_eq_int, ordCmpInt_swap]

theorem bytesCmp_refl (s : List Nat) : bytesCmp s s = .eq := by
  induction s with
  | nil => rfl
  | cons a s ih => simp [bytesCmp, ordCmpNat_self, ih]

theorem bytesCmp_eq_iff : ∀ {s t : List Nat}, bytesCmp s t = .eq ↔ s = t := by
  intro s
  induction s with
  | nil => intro t; cases t <;> simp [bytesCmp]
  | cons a s ih =>
    intro t
    cases t with
    | nil => simp [bytesCmp]
    | cons b t =>
      simp only [bytesCmp]
      cases h : ordCmpNat a b with
      | eq =>
        have hab : a = b := ordCmpNat_eq_iff.mp h
        subst hab
        simp [ih]
      | lt =>
        have hab : a ≠ b := by
          intro hc; rw [hc, ordCmpNat_self] at h; cases h
        simp [hab]
      | gt =>
        have hab : a ≠ b := by
          intro hc; rw [hc, ordCmpNat_self] at h; cases h
        simp [hab]

theorem bytesCmp_swap : ∀ (s t : List Nat), bytesCmp t s = (bytesCmp s t).swap := by
  intro s
  induction s with
  | nil => intro t; cases t <;> rfl
  | cons a s ih =>
    intro t
    cases t with
    | nil => rfl
    | cons b t =>
      simp only [bytesCmp]
      rw [ordCmpNat_swap a b]
      cases ordCmpNat a b with
      | lt => rfl
      | gt => rfl
      | eq => simpa [Ordering.swap] using ih t

theorem bytesCmp_trans_lt :
    ∀ {s t u : List Nat}, bytesCmp s t = .lt → bytesCmp t u = .lt → bytesCmp s u = .lt := by
  intro s
  induction s with
  | nil =>
    intro t u h1 h2
    cases t with
    | nil => exact h2
    | cons b t =>
      cases u with
      | nil => simp [bytesCmp] at h2
      | cons c u => rfl
  | cons a s ih =>
    intro t u h1 h2
    cases t with
    | nil => simp [bytesCmp] at h1
    | cons b t =>
      cases u with
      | nil => simp [bytesCmp] at h2
      | cons c u =>
        simp only [bytesCmp] at h1 h2 ⊢
        cases hab : ordCmpNat a b with
        | gt => rw [hab] at h1; simp at h1
        | eq =>
          rw [hab] at h1
          simp only [] at h1
          have hab' : a = b := ordCmpNat_eq_iff.mp hab
          subst hab'
          cases hbc : ordCmpNat a c with
          | gt => rw [hbc] at h2; simp at h2
          | eq =>
            rw [hbc] at h2
            simp only [] at h2
            have hac : a = c := ordCmpNat_eq_iff.mp hbc
            subst hac
            simpa [ordCmpNat_self] using ih h1 h2
          | lt => rfl
        | lt =>
          rw [hab] at h1
          have hab' : a < b := ordCmpNat_lt_iff.mp hab
          cases hbc : ordCmpNat b c with
          | gt => rw [hbc] at h2; simp at h2
          | eq =>
            have hbc' : b = c := ordCmpNat_eq_iff.mp hbc
            subst hbc'
            rw [ordCmpNat_lt_iff.mpr hab']
          | lt =>
            have hbc' : b < c := ordCmpNat_lt_iff.mp hbc
            rw [ordCmpNat_lt_iff.mpr (Nat.lt_trans hab' hbc')]

theorem absI128_natCast (n : Nat) : absI128 (n : Int) = .ok (n : Int) := by
  have h1 : (n : Int) ≠ -(2 ^ 127) := by
    have h2 := Int.natCast_nonneg n
    intro h
    rw [h] at h2
    norm_num at h2
  unfold absI128
  rw [if_neg h1, abs_of_nonneg (Int.natCast_nonneg n)]

theorem chainCmp_int (x y : Int) : chainCmp x y (.ok []) (.ok []) = .ok (ordCmpInt x y) := by
  unfold chainCmp
  by_cases h : x = y
  · subst h
    simp [ordCmpInt_self, bytesCmp]
  · simp [h]

theorem chainCmp_nat (x y : Nat) :
    chainCmp (x : Int) (y : Int) (.ok []) (.ok []) = .ok (ordCmpNat x y) := by
  rw [chainCmp_int, ordCmpNat_eq_int]

theorem absCmp_chain (x y : Int) :
    absCmpI128 x y =
      (match absI128 x, absI128 y with
       | .error e, _ => .error e
       | _, .error e => .error e
       | .ok p, .ok q => chainCmp p q (.ok []) (.ok [])) := by
  unfold absCmpI128
  cases absI128 x with
  | error e => cases absI128 y with | error e2 => rfl | ok q => rfl
  | ok p =>
    cases absI128 y with
    | error e => rfl
    | ok q => simp [chainCmp_int]

theorem chainCmp_len (la lb : Nat) (s t : List Nat) :
    chainCmp (la : Int) (lb : Int) (.ok s) (.ok t) =
      if la ≠ lb then .ok (ordCmpNat la lb) else .ok (bytesCmp s t) := by
  unfold chainCmp
  by_cases h : la = lb
  · subst h
    simp
  · have h' : (la : Int) ≠ (lb : Int) := by exact_mod_cast h
    simp [h, h', ordCmpNat_eq_int]

theorem chainCmp_ser (la lb : Nat) (a b : Value) :
    chainCmp (la : Int) (lb : Int) (to_vec a) (to_vec b) =
      if la ≠ lb then .ok (ordCmpNat la lb) else serCmp a b := by
  unfold chainCmp serCmp
  by_cases h : la = lb
  · subst h
    simp
  · have h' : (la : Int) ≠ (lb : Int) := by exact_mod_cast h
    simp [h, h', ordCmpNat_eq_int]

theorem serCmp_chain (a b : Value) : serCmp a b = chainCmp 0 0 (to_vec a) (to_vec b) := by
  unfold chainCmp serCmp
  simp

theorem lenSer_case (la lb : Nat) (sa sb : Except Err (List Nat)) :
    (if la = lb then chainCmp 0 0 sa sb else Except.ok (ordCmpNat la lb)) =
      chainCmp (la : Int) (lb : Int) sa sb := by
  unfold chainCmp
  by_cases h : la = lb
  · subst h
    simp
  · have h2 : (la : Int) ≠ (lb : Int) := by exact_mod_cast h
    simp [h, h2, ordCmpNat_eq_int]

set_option linter.unreachableTactic false in
set_option linter.unusedTactic false in
theorem cmp_eq_spec (a b : Value) : Value.cmp a b = cmpSpec a b := by
  unfold Value.cmp cmpSpec
  cases hma : a.major_type with
  | error e => cases hmb : b.major_type <;> rfl
  | ok ma =>
    cases hmb : b.major_type with
    | error e => rfl
    | ok mb =>
      dsimp only
      by_cases hne : ma = mb
      · subst hne
        rw [if_neg (fun h => h rfl), if_neg (fun h => h rfl)]
        cases a <;> cases b <;>
          (try simp only [Value.major_type] at hma) <;>
          (try simp only [Value.major_type] at hmb) <;>
          (first | split_ifs at hma hmb | split_ifs at hma | split_ifs at hmb | skip) <;>
          (try simp_all [sub1?, sub2?, absCmp_chain, absI128_natCast,
              chainCmp_nat, chainCmp_len]) <;>
          (first
            | omega
            | rw [serCmp_chain]
            | exact lenSer_case _ _ _ _
            | (split_ifs <;> simp_all [ordCmpNat_self, bytesCmp])
            | skip)
        all_goals exact lenSer_case _ _ _ _
      · rw [if_pos hne, if_pos hne]

theorem spec_rank_ne {a b : Value} {ma mb : Nat} (ha : a.major_type = .ok ma)
    (hb : b.major_type = .ok mb) (h : ma ≠ mb) :
    cmpSpec a b = .ok (ordCmpNat ma mb) := by
  unfold cmpSpec
  rw [ha, hb]
  dsimp only
  rw [if_pos h]

theorem spec_sub {a b : Value} {m : Nat} {x y : Int} (ha : a.major_type = .ok m)
    (hb : b.major_type = .ok m) (hx : sub1? a = .ok x) (hy : sub1? b = .ok y) :
    cmpSpec a b = chainCmp x y (sub2? a) (sub2? b) := by
  unfold cmpSpec
  rw [ha, hb]
  dsimp only
  rw [if_neg (fun hh => hh rfl), hx, hy]

theorem chainCmp_ok {sa sb : Except Err (List Nat)} (x y : Int) {s t : List Nat}
    (hs : sa = .ok s) (ht : sb = .ok t) :
    chainCmp x y sa sb = if x ≠ y then .ok (ordCmpInt x y) else .ok (bytesCmp s t) := by
  unfold chainCmp
  rw [hs, ht]

theorem spec_ok_elim {a b : Value} {o : Ordering} (h : cmpSpec a b = .ok o) :
    ∃ ma mb, a.major_type = .ok ma ∧ b.major_type = .ok mb ∧
      ((ma ≠ mb ∧ o = ordCmpNat ma mb) ∨
       (ma = mb ∧ ∃ x y, sub1? a = .ok x ∧ sub1? b = .ok y ∧
         ((x ≠ y ∧ o = ordCmpInt x y) ∨
          (x = y ∧ ∃ s t, sub2? a = .ok s ∧ sub2? b = .ok t ∧ o = bytesCmp s t)))) := by
  unfold cmpSpec at h
  cases hma : a.major_type with
  | error e =>
    rw [hma] at h
    cases hmb : b.major_type <;> rw [hmb] at h <;> simp at h
  | ok ma =>
    cases hmb : b.major_type with
    | error e => rw [hma, hmb] at h; simp at h
    | ok mb =>
      rw [hma, hmb] at h
      dsimp only at h
      refine ⟨ma, mb, rfl, rfl, ?_⟩
      by_cases hne : ma = mb
      · subst hne
        rw [if_neg (fun hh => hh rfl)] at h
        refine Or.inr ⟨rfl, ?_⟩
        cases hx : sub1? a with
        | error e =>
          rw [hx] at h
          cases hy : sub1? b <;> rw [hy] at h <;> simp at h
        | ok x =>
          cases hy : sub1? b with
          | error e => rw [hx, hy] at h; simp at h
          | ok y =>
            rw [hx, hy] at h
            dsimp only at h
            refine ⟨x, y, rfl, rfl, ?_⟩
            unfold chainCmp at h
            by_cases hxy : x = y
            · subst hxy
              rw [if_neg (fun hh => hh rfl)] at h
              refine Or.inr ⟨rfl, ?_⟩
              cases hs : sub2? a with
              | error e =>
                rw [hs] at h
                cases ht : sub2? b <;> rw [ht] at h <;> simp at h
              | ok s =>
                cases ht : sub2? b with
                | error e => rw [hs, ht] at h; simp at h
                | ok t =>
                  rw [hs, ht] at h
                  dsimp only at h
                  refine ⟨s, t, rfl, rfl, ?_⟩
                  injection h with h
                  exact h.symm
            · rw [if_pos hxy] at h
              injection h with h
              exact Or.inl ⟨hxy, h.symm⟩
      · rw [if_pos hne] at h
        injection h with h
        exact Or.inl ⟨hne, h.symm⟩
theorem exceptOkInj {α β : Type} {x : Except α β} {u v : β}
    (h1 : x = .ok u) (h2 : x = .ok v) : u = v := by
  rw [h1] at h2
  injection h2

theorem spec_eq_elim {a b : Value} (h : cmpSpec a b = .ok .eq) :
    ∃ m x s, a.major_type = .ok m ∧ b.major_type = .ok m ∧
      sub1? a = .ok x ∧ sub1? b = .ok x ∧ sub2? a = .ok s ∧ sub2? b = .ok s := by
  obtain ⟨ma, mb, hma, hmb, hd⟩ := spec_ok_elim h
  rcases hd with ⟨hne, ho⟩ | ⟨heq, x, y, hx, hy, hd'⟩
  · exact absurd (ordCmpNat_eq_iff.mp ho.symm) hne
  · subst heq
    rcases hd' with ⟨hnexy, ho⟩ | ⟨hxy, s, t, hs, ht, ho⟩
    · exact absurd (ordCmpInt_eq_iff.mp ho.symm) hnexy
    · subst hxy
      have hst : s = t := bytesCmp_eq_iff.mp ho.symm
      subst hst
      exact ⟨ma, x, s, hma, hmb, hx, hy, hs, ht⟩

theorem cmp_swap {a b : Value} {o : Ordering} (h : Value.cmp a b = .ok o) :
    Value.cmp b a = .ok o.swap := by
  rw [cmp_eq_spec] at h ⊢
  obtain ⟨ma, mb, hma, hmb, hd⟩ := spec_ok_elim h
  rcases hd with ⟨hne, ho⟩ | ⟨heq, x, y, hx, hy, hd'⟩
  · subst ho
    rw [spec_rank_ne hmb hma (Ne.symm hne), ordCmpNat_swap]
  · subst heq
    rcases hd' with ⟨hnexy, ho⟩ | ⟨hxy, s, t, hs, ht, ho⟩
    · subst ho
      rw [spec_sub hmb hma hy hx]
      unfold chainCmp
      rw [if_pos (Ne.symm hnexy), ordCmpInt_swap]
    · subst hxy
      subst ho
      rw [spec_sub hmb hma hy hx, chainCmp_ok x x ht hs, if_neg (fun hh => hh rfl),
        bytesCmp_swap]

theorem cmp_self_eq {a : Value} {o : Ordering} (h : Value.cmp a a = .ok o) : o = .eq := by
  rw [cmp_eq_spec] at h
  obtain ⟨ma, mb, hma, hmb, hd⟩ := spec_ok_elim h
  rcases hd with ⟨hne, ho⟩ | ⟨heq, x, y, hx, hy, hd'⟩
  · exact absurd (exceptOkInj hma hmb) hne
  · rcases hd' with ⟨hne', ho⟩ | ⟨hxy, s, t, hs, ht, ho⟩
    · exact absurd (exceptOkInj hx hy) hne'
    · have hst : s = t := exceptOkInj hs ht
      subst hst
      rw [ho, bytesCmp_refl]

theorem cmp_trans_lt {a b c : Value} (h1 : Value.cmp a b = .ok .lt)
    (h2 : Value.cmp b c = .ok .lt) : Value.cmp a c = .ok .lt := by
  rw [cmp_eq_spec] at h1 h2 ⊢
  obtain ⟨ma, mb, hma, hmb, hd1⟩ := spec_ok_elim h1
  obtain ⟨mb2, mc, hmb2, hmc, hd2⟩ := spec_ok_elim h2
  have hbb : mb = mb2 := exceptOkInj hmb hmb2
  subst hbb
  rcases hd1 with ⟨hne1, ho1⟩ | ⟨heq1, x, y, hx, hy, hd1'⟩
  · have hlt1 : ma < mb := ordCmpNat_lt_iff.mp ho1.symm
    rcases hd2 with ⟨hne2, ho2⟩ | ⟨heq2, _, _, _, _, _⟩
    · have hlt2 : mb < mc := ordCmpNat_lt_iff.mp ho2.symm
      rw [spec_rank_ne hma hmc (by omega), ordCmpNat_lt_iff.mpr (by omega)]
    · subst heq2
      rw [spec_rank_ne hma hmc (by omega), ordCmpNat_lt_iff.mpr (by omega)]
  · subst heq1
    rcases hd2 with ⟨hne2, ho2⟩ | ⟨heq2, y2, z, hy2, hz, hd2'⟩
    · have hlt2 : ma < mc := ordCmpNat_lt_iff.mp ho2.symm
      rw [spec_rank_ne hma hmc (by omega), ordCmpNat_lt_iff.mpr (by omega)]
    · subst heq2
      have hyy : y = y2 := exceptOkInj hy hy2
      subst hyy
      rcases hd1' with ⟨hnexy, hoxy⟩ | ⟨hxyeq, s, t, hs, ht, host⟩
      · have hxy : x < y := ordCmpInt_lt_iff.mp hoxy.symm
        rcases hd2' with ⟨hneyz, hoyz⟩ | ⟨hyzeq, _, _, _, _, _⟩
        · have hyz : y < z := ordCmpInt_lt_iff.mp hoyz.symm
          rw [spec_sub hma hmc hx hz]
          unfold chainCmp
          rw [if_pos (show x ≠ z by omega), ordCmpInt_lt_iff.mpr (by omega)]
        · subst hyzeq
          rw [spec_sub hma hmc hx hz]
          unfold chainCmp
          rw [if_pos (show x ≠ y by omega), ordCmpInt_lt_iff.mpr (by omega)]
      · subst hxyeq
        rcases hd2' with ⟨hneyz, hoyz⟩ | ⟨hyzeq, t2, u, ht2, hu, hou⟩
        · have hyz : x < z := ordCmpInt_lt_iff.mp hoyz.symm
          rw [spec_sub hma hmc hx hz]
          unfold chainCmp
          rw [if_pos (show x ≠ z by omega), ordCmpInt_lt_iff.mpr (by omega)]
        · subst hyzeq
          have htt : t = t2 := exceptOkInj ht ht2
          subst htt
          rw [spec_sub hma hmc hx hz, chainCmp_ok x x hs hu, if_neg (fun hh => hh rfl),
            bytesCmp_trans_lt host.symm hou.symm]

theorem cmp_lt_of_lt_of_eq {a b c : Value} (h1 : Value.cmp a b = .ok .lt)
    (h2 : Value.cmp b c = .ok .eq) : Value.cmp a c = .ok .lt := by
  rw [cmp_eq_spec] at h1 h2 ⊢
  obtain ⟨m, x, s, hb1, hc1, hb2, hc2, hb3, hc3⟩ := spec_eq_elim h2
  obtain ⟨ma, mb, hma, hmb, hd⟩ := spec_ok_elim h1
  have hbb : m = mb := exceptOkInj hb1 hmb
  subst hbb
  rcases hd with ⟨hne, ho⟩ | ⟨heq, x2, y2, hx2, hy2, hd'⟩
  · rw [spec_rank_ne hma hc1 hne, ← ho]
  · subst heq
    have hyy : x = y2 := exceptOkInj hb2 hy2
    subst hyy
    rcases hd' with ⟨hnexy, ho⟩ | ⟨hxy, s2, t2, hs2, ht2, ho⟩
    · rw [spec_sub hma hc1 hx2 hc2]
      unfold chainCmp
      rw [if_pos hnexy, ← ho]
    · subst hxy
      have htt : s = t2 := exceptOkInj hb3 ht2
      subst htt
      rw [spec_sub hma hc1 hx2 hc2, chainCmp_ok x2 x2 hs2 hc3, if_neg (fun hh => hh rfl),
        ← ho]

theorem cmp_lt_of_eq_of_lt {a b c : Value} (h1 : Value.cmp a b = .ok .eq)
    (h2 : Value.cmp b c = .ok .lt) : Value.cmp a c = .ok .lt := by
  rw [cmp_eq_spec] at h1 h2 ⊢
  obtain ⟨m, x, s, ha1, hb1, ha2, hb2, ha3, hb3⟩ := spec_eq_elim h1
  obtain ⟨mb2, mc, hmb2, hmc, hd⟩ := spec_ok_elim h2
  have hbb : m = mb2 := exceptOkInj hb1 hmb2
  subst hbb
  rcases hd with ⟨hne, ho⟩ | ⟨heq, y2, z2, hy2, hz2, hd'⟩
  · rw [spec_rank_ne ha1 hmc hne, ← ho]
  · have hyy : x = y2 := exceptOkInj hb2 hy2
    subst hyy
    rcases hd' with ⟨hnexz, ho⟩ | ⟨hxz, t2, u2, ht2, hu2, ho⟩
    · rw [spec_sub ha1 (heq ▸ hmc) ha2 hz2]
      unfold chainCmp
      rw [if_pos hnexz, ← ho]
    · subst hxz
      have htt : s = t2 := exceptOkInj hb3 ht2
      subst htt
      rw [spec_sub ha1 (heq ▸ hmc) ha2 hz2, chainCmp_ok x x ha3 hu2,
        if_neg (fun hh => hh rfl), ← ho]

theorem cmp_eq_trans {a b c : Value} (h1 : Value.cmp a b = .ok .eq)
    (h2 : Value.cmp b c = .ok .eq) : Value.cmp a c = .ok .eq := by
  rw [cmp_eq_spec] at h1 h2 ⊢
  obtain ⟨m, x, s, ha1, hb1, ha2, hb2, ha3, hb3⟩ := spec_eq_elim h1
  obtain ⟨m2, x2, s2, hb1x, hc1, hb2x, hc2, hb3x, hc3⟩ := spec_eq_elim h2
  have hmm : m = m2 := exceptOkInj hb1 hb1x
  subst hmm
  have hxx : x = x2 := exceptOkInj hb2 hb2x
  subst hxx
  have hss : s = s2 := exceptOkInj hb3 hb3x
  subst hss
  rw [spec_sub ha1 hc1 ha2 hc2, chainCmp_ok x x ha3 hc3, if_neg (fun hh => hh rfl),
    bytesCmp_refl]
theorem sortedKeys_tail {k : Value} {v : Value} {l : ValuePairList}
    (h : sortedKeys (.cons k v l) = true) : sortedKeys l = true := by
  cases l with
  | nil => rfl
  | cons k' v' rest =>
    unfold sortedKeys at h
    exact (Bool.and_eq_true_iff.mp h).2

theorem sortedKeys_head {k v k' v' : Value} {rest : ValuePairList}
    (h : sortedKeys (.cons k v (.cons k' v' rest)) = true) :
    Value.cmp k k' = .ok .lt := by
  unfold sortedKeys at h
  exact of_decide_eq_true (Bool.and_eq_true_iff.mp h).1

theorem sortedKeys_anyVal (k v v' : Value) (l : ValuePairList) :
    sortedKeys (.cons k v l) = sortedKeys (.cons k v' l) := by
  cases l <;> rfl

theorem sortedKeys_cons {k v k' v' : Value} {rest : ValuePairList}
    (h1 : Value.cmp k k' = .ok .lt) (h2 : sortedKeys (.cons k' v' rest) = true) :
    sortedKeys (.cons k v (.cons k' v' rest)) = true := by
  unfold sortedKeys
  rw [Bool.and_eq_true_iff]
  exact ⟨decide_eq_true h1, h2⟩

/-- The head key of an entry sequence, if any. -/
def headKey : ValuePairList → Option Value
  | .nil => none
  | .cons k _ _ => some k

/-- Structural induction for `ValuePairList` (the autogenerated recursor is a
mutual-motive one, unusable by the `induction` tactic). -/
theorem ValuePairList.inductionOn {P : ValuePairList → Prop} (h0 : P .nil)
    (h1 : ∀ k v rest, P rest → P (.cons k v rest)) : ∀ l, P l
  | .nil => h0
  | .cons k v rest => h1 k v rest (ValuePairList.inductionOn h0 h1 rest)

theorem mapInsert_headKey {l : ValuePairList} {k v : Value} {r : ValuePairList}
    (h : mapInsert l k v = .ok r) : headKey r = some k ∨ headKey r = headKey l := by
  cases l with
  | nil =>
    unfold mapInsert at h
    injection h with h
    subst h
    exact Or.inl rfl
  | cons k' v' rest =>
    unfold mapInsert at h
    cases hc : Value.cmp k k' with
    | error e => rw [hc] at h; cases h
    | ok o =>
      rw [hc] at h
      cases o with
      | lt => injection h with h; subst h; exact Or.inl rfl
      | eq => injection h with h; subst h; exact Or.inr rfl
      | gt =>
        cases hr : mapInsert rest k v with
        | error e => rw [hr] at h; cases h
        | ok r' => rw [hr] at h; injection h with h; subst h; exact Or.inr rfl

theorem mapInsert_sorted {l : ValuePairList} {k v : Value} {r : ValuePairList}
    (hs : sortedKeys l = true) (h : mapInsert l k v = .ok r) : sortedKeys r = true := by
  induction l using ValuePairList.inductionOn generalizing r with
  | h0 =>
    unfold mapInsert at h
    injection h with h
    subst h
    rfl
  | h1 k' v' rest ih =>
    unfold mapInsert at h
    cases hc : Value.cmp k k' with
    | error e => rw [hc] at h; cases h
    | ok o =>
      rw [hc] at h
      cases o with
      | lt =>
        injection h with h
        subst h
        exact sortedKeys_cons hc hs
      | eq =>
        injection h with h
        subst h
        rw [sortedKeys_anyVal k' v v']
        exact hs
      | gt =>
        cases hr : mapInsert rest k v with
        | error e => rw [hr] at h; cases h
        | ok r' =>
          rw [hr] at h
          injection h with h
          subst h
          have hrest : sortedKeys rest = true := sortedKeys_tail hs
          have hr' : sortedKeys r' = true := ih hrest hr
          cases hr'' : r' with
          | nil => rfl
          | cons rk rv rr =>
            subst hr''
            refine sortedKeys_cons ?_ hr'
            rcases mapInsert_headKey hr with hh | hh
            · unfold headKey at hh
              injection hh with hh
              subst hh
              have := cmp_swap hc
              exact this
            · cases rest with
              | nil =>
                unfold mapInsert at hr
                injection hr with hr2
                cases hr2
                exact cmp_swap hc
              | cons k2 v2 rest2 =>
                unfold headKey at hh
                injection hh with hh
                subst hh
                exact sortedKeys_head hs

theorem sorted_head_lt_hasPair {k' v' : Value} {rest : ValuePairList} {k0 v0 : Value}
    (hs : sortedKeys (.cons k' v' rest) = true) (hp : hasPair rest k0 v0) :
    Value.cmp k' k0 = .ok .lt := by
  induction rest using ValuePairList.inductionOn generalizing k' v' with
  | h0 => cases hp
  | h1 k1 v1 rest1 ih =>
    rcases hp with ⟨hk, _⟩ | hp'
    · subst hk
      exact sortedKeys_head hs
    · have h1 : Value.cmp k' k1 = .ok .lt := sortedKeys_head hs
      have h2 : Value.cmp k1 k0 = .ok .lt := ih (sortedKeys_tail hs) hp'
      exact cmp_trans_lt h1 h2

theorem mapInsert_overwrite {l : ValuePairList} {k v k0 v0 : Value} {r : ValuePairList}
    (hs : sortedKeys l = true) (hp : hasPair l k0 v0) (he : Value.cmp k k0 = .ok .eq)
    (h : mapInsert l k v = .ok r) : hasPair r k0 v := by
  induction l using ValuePairList.inductionOn generalizing r with
  | h0 => cases hp
  | h1 k' v' rest ih =>
    unfold mapInsert at h
    cases hc : Value.cmp k k' with
    | error e => rw [hc] at h; cases h
    | ok o =>
      rw [hc] at h
      cases o with
      | lt =>
        exfalso
        rcases hp with ⟨hk, _⟩ | hp'
        · subst hk
          have := exceptOkInj hc he
          cases this
        · have h1 : Value.cmp k' k0 = .ok .lt := sorted_head_lt_hasPair hs hp'
          have h2 : Value.cmp k k0 = .ok .lt := cmp_trans_lt hc h1
          have := exceptOkInj h2 he
          cases this
      | eq =>
        injection h with h
        subst h
        rcases hp with ⟨hk, _⟩ | hp'
        · subst hk
          exact Or.inl ⟨rfl, rfl⟩
        · exfalso
          have h1 : Value.cmp k' k0 = .ok .lt := sorted_head_lt_hasPair hs hp'
          have h2 : Value.cmp k k0 = .ok .lt := cmp_lt_of_eq_of_lt hc h1
          have := exceptOkInj h2 he
          cases this
      | gt =>
        cases hr : mapInsert rest k v with
        | error e => rw [hr] at h; cases h
        | ok r' =>
          rw [hr] at h
          injection h with h
          subst h
          rcases hp with ⟨hk, _⟩ | hp'
          · exfalso
            subst hk
            have := exceptOkInj hc he
            cases this
          · exact Or.inr (ih (sortedKeys_tail hs) hp' hr)
theorem major_type_rankSpec : ∀ a : Value, wf a = true → a.major_type = .ok (rankSpec a) := by
  intro a ha
  cases a with
  | SignedInteger i =>
    simp only [Value.major_type, rankSpec]
    split_ifs <;> rfl
  | LargeSignedInteger i =>
    simp only [Value.major_type, rankSpec]
    split_ifs <;> rfl
  | Hidden => simp [wf] at ha
  | _ => rfl

theorem major7_cases {a : Value} (h : a.major_type = .ok 7) :
    a = .Null ∨ (∃ x, a = .Bool x) ∨ (∃ n, a = .Float n) := by
  cases a with
  | Null => exact Or.inl rfl
  | Bool x => exact Or.inr (Or.inl ⟨x, rfl⟩)
  | Float n => exact Or.inr (Or.inr ⟨n, rfl⟩)
  | SignedInteger i => simp only [Value.major_type] at h; split_ifs at h <;> simp at h
  | LargeSignedInteger i => simp only [Value.major_type] at h; split_ifs at h <;> simp at h
  | _ => simp [Value.major_type] at h

theorem rank7_sub1 : ∀ a : Value, a.major_type = .ok 7 → sub1? a = .ok 0 := by
  intro a h
  cases a with
  | Null => rfl
  | Bool _ => rfl
  | Float _ => rfl
  | SignedInteger i => simp only [Value.major_type] at h; split_ifs at h <;> simp at h
  | LargeSignedInteger i => simp only [Value.major_type] at h; split_ifs at h <;> simp at h
  | _ => simp [Value.major_type] at h

/-- C1 (amended): on every input where the comparison completes (returns an
ordering rather than aborting), `Value.cmp` is a valid total order — it is
antisymmetric (swapping the operands swaps the result, so exactly one of
`a<b`, `a==b`, `a>b` holds, the comparison being a single-valued function),
transitive, and reflexive (`cmp a a` is `Equal` whenever it completes). -/
theorem c1_total_order :
    (∀ (a b : Value) (o : Ordering), Value.cmp a b = .ok o → Value.cmp b a = .ok o.swap) ∧
    (∀ a b c : Value,
      Value.cmp a b = .ok .lt → Value.cmp b c = .ok .lt → Value.cmp a c = .ok .lt) ∧
    (∀ (a : Value) (o : Ordering), Value.cmp a a = .ok o → o = .eq) :=
  ⟨fun _ _ _ h => cmp_swap h,
   fun _ _ _ h1 h2 => cmp_trans_lt h1 h2,
   fun _ _ h => cmp_self_eq h⟩

/-- Witness for C1 at concrete inputs. -/
theorem c1_total_order_witness :
    Value.cmp (.UnsignedInteger 3) (.UnsignedInteger 1) = .ok .gt ∧
    Value.cmp (.UnsignedInteger 1) (.UnsignedInteger 5) = .ok .lt ∧
    (Ordering.eq : Ordering) = .eq :=
  ⟨c1_total_order.1 (.UnsignedInteger 1) (.UnsignedInteger 3) .lt (by decide),
   c1_total_order.2.1 (.UnsignedInteger 1) (.UnsignedInteger 2) (.UnsignedInteger 5)
     (by decide) (by decide),
   c1_total_order.2.2 (.Text [97]) .eq (by decide)⟩

/-- Counterexample to C1 as stated: a publicly constructible value (an array
holding `LargeSignedInteger(-2^70)`, which is below the serializable range)
on which `compare(a, a)` aborts in the serialize fallback instead of
returning `Equal`. -/
theorem c1_reflexivity_counterexample :
    Value.cmp (.Array (.cons (.LargeSignedInteger (-(2 ^ 70))) .nil))
        (.Array (.cons (.LargeSignedInteger (-(2 ^ 70))) .nil)) = .error .encodeError ∧
    wf (.Array (.cons (.LargeSignedInteger (-(2 ^ 70))) .nil)) = true := by
  constructor
  · decide
  · decide

/-- C2: `major_type` classifies every constructible value exactly as the
spec's rank table (`rankSpec`) does, and whenever the ranks differ the value
with the smaller rank compares `Less`. -/
theorem c2_major_rank :
    ∀ a b : Value, wf a = true → wf b = true →
      a.major_type = .ok (rankSpec a) ∧
      (rankSpec a < rankSpec b → Value.cmp a b = .ok .lt) := by
  intro a b ha hb
  refine ⟨major_type_rankSpec a ha, fun hlt => ?_⟩
  rw [cmp_eq_spec,
    spec_rank_ne (major_type_rankSpec a ha) (major_type_rankSpec b hb) (by omega),
    ordCmpNat_lt_iff.mpr hlt]

/-- Witness for C2 at concrete inputs. -/
theorem c2_major_rank_witness :
    Value.major_type (.UnsignedInteger 0) = .ok (rankSpec (.UnsignedInteger 0)) ∧
    Value.cmp (.UnsignedInteger 0) (.Bytes []) = .ok .lt :=
  ⟨(c2_major_rank (.UnsignedInteger 0) (.Bytes []) (by decide) (by decide)).1,
   (c2_major_rank (.UnsignedInteger 0) (.Bytes []) (by decide) (by decide)).2 (by decide)⟩

/-- C3 (failing input): at the constructible pair
`(LargeSignedInteger(i128::MIN), LargeSignedInteger(-2))` the comparator does
not order by magnitude — `i128::abs` overflows and the comparison panics. -/
theorem c3_magnitude_overflow :
    Value.cmp (.LargeSignedInteger (-(2 ^ 127))) (.LargeSignedInteger (-2)) =
      .error .absOverflow ∧
    wf (.LargeSignedInteger (-(2 ^ 127))) = true ∧
    wf (.LargeSignedInteger (-2)) = true ∧
    Value.cmp (.SignedInteger (-3)) (.SignedInteger (-5)) = .ok .lt := by
  refine ⟨by decide, by decide, by decide, by decide⟩

/-- C8 (failing input): the magnitude of `SignedInteger(i64::MIN)` itself is
computed safely after promotion to `i128` (`absI128 (-2^63)` succeeds), but
comparing it against the constructible `LargeSignedInteger(i128::MIN)` still
panics, computing the counterpart's magnitude. -/
theorem c8_i64min_magnitude :
    absI128 (-(2 ^ 63)) = .ok (2 ^ 63) ∧
    Value.cmp (.SignedInteger (-(2 ^ 63))) (.LargeSignedInteger (-(2 ^ 127))) =
      .error .absOverflow ∧
    wf (.SignedInteger (-(2 ^ 63))) = true ∧
    wf (.LargeSignedInteger (-(2 ^ 127))) = true := by
  refine ⟨by decide, by decide, by decide, by decide⟩

/-- C10: comparing the constructible `LargeSignedInteger(i128::MIN)` against
the negative integer `SignedInteger(-1)` panics on the 128-bit absolute
value, so the magnitude computation is not total over constructible values. -/
theorem c10_i128min_panic :
    Value.cmp (.LargeSignedInteger (-(2 ^ 127))) (.SignedInteger (-1)) =
      .error .absOverflow ∧
    wf (.LargeSignedInteger (-(2 ^ 127))) = true ∧
    wf (.SignedInteger (-1)) = true := by
  refine ⟨by decide, by decide, by decide⟩

/-- C4: arrays and maps order by element/entry count first (fewer sorts
first); at equal counts — and for every pairing of the rank-7 values
null/bool/float — the comparator falls back to serializing both operands
with the canonical serializer and comparing the bytes lexicographically. -/
theorem c4_length_then_serialize :
    ∀ (xs ys : ValueList) (ps qs : ValuePairList) (a b : Value),
      (xs.length < ys.length → Value.cmp (.Array xs) (.Array ys) = .ok .lt) ∧
      (ps.length < qs.length → Value.cmp (.Map ps) (.Map qs) = .ok .lt) ∧
      (xs.length = ys.length →
        Value.cmp (.Array xs) (.Array ys) = serCmp (.Array xs) (.Array ys)) ∧
      (ps.length = qs.length →
        Value.cmp (.Map ps) (.Map qs) = serCmp (.Map ps) (.Map qs)) ∧
      (a.major_type = .ok 7 → b.major_type = .ok 7 → Value.cmp a b = serCmp a b) := by
  intro xs ys ps qs a b
  refine ⟨fun h => ?_, fun h => ?_, fun h => ?_, fun h => ?_, fun ha hb => ?_⟩
  · unfold Value.cmp
    dsimp only [Value.major_type]
    rw [if_neg (fun hh => hh rfl), if_pos (by omega : xs.length ≠ ys.length),
      ordCmpNat_lt_iff.mpr h]
  · unfold Value.cmp
    dsimp only [Value.major_type]
    rw [if_neg (fun hh => hh rfl), if_pos (by omega : ps.length ≠ qs.length),
      ordCmpNat_lt_iff.mpr h]
  · unfold Value.cmp
    dsimp only [Value.major_type]
    rw [if_neg (fun hh => hh rfl), if_neg (by omega : ¬xs.length ≠ ys.length)]
  · unfold Value.cmp
    dsimp only [Value.major_type]
    rw [if_neg (fun hh => hh rfl), if_neg (by omega : ¬ps.length ≠ qs.length)]
  · rcases major7_cases ha with rfl | ⟨x, rfl⟩ | ⟨n, rfl⟩ <;>
      rcases major7_cases hb with rfl | ⟨y, rfl⟩ | ⟨m, rfl⟩ <;> rfl

/-- Witness for C4 at concrete inputs. -/
theorem c4_length_then_serialize_witness :
    Value.cmp (.Array (.cons .Null .nil)) (.Array (.cons .Null (.cons .Null .nil))) = .ok .lt ∧
    Value.cmp (.Array (.cons (.UnsignedInteger 1) .nil)) (.Array (.cons .Null .nil)) =
      serCmp (.Array (.cons (.UnsignedInteger 1) .nil)) (.Array (.cons .Null .nil)) ∧
    Value.cmp .Null (.Bool false) = serCmp .Null (.Bool false) :=
  ⟨(c4_length_then_serialize (.cons .Null .nil) (.cons .Null (.cons .Null .nil))
      .nil .nil .Null .Null).1 (by decide),
   (c4_length_then_serialize (.cons (.UnsignedInteger 1) .nil) (.cons .Null .nil)
      .nil .nil .Null .Null).2.2.1 (by decide),
   (c4_length_then_serialize .nil .nil .nil .nil .Null (.Bool false)).2.2.2.2
     (by decide) (by decide)⟩

/-- C5: byte strings and text strings order by length first (shorter sorts
first, regardless of content); at equal lengths they compare lexically by
content. -/
theorem c5_strings_length_first :
    ∀ s t : List Nat,
      (s.length < t.length →
        Value.cmp (.Bytes s) (.Bytes t) = .ok .lt ∧
        Value.cmp (.Text s) (.Text t) = .ok .lt) ∧
      (s.length = t.length →
        Value.cmp (.Bytes s) (.Bytes t) = .ok (bytesCmp s t) ∧
        Value.cmp (.Text s) (.Text t) = .ok (bytesCmp s t)) := by
  intro s t
  constructor
  · intro h
    constructor
    · unfold Value.cmp
      dsimp only [Value.major_type]
      rw [if_neg (fun hh => hh rfl), if_pos (by omega : s.length ≠ t.length),
        ordCmpNat_lt_iff.mpr h]
    · unfold Value.cmp
      dsimp only [Value.major_type]
      rw [if_neg (fun hh => hh rfl), if_pos (by omega : s.length ≠ t.length),
        ordCmpNat_lt_iff.mpr h]
  · intro h
    constructor
    · unfold Value.cmp
      dsimp only [Value.major_type]
      rw [if_neg (fun hh => hh rfl), if_neg (by omega : ¬s.length ≠ t.length)]
    · unfold Value.cmp
      dsimp only [Value.major_type]
      rw [if_neg (fun hh => hh rfl), if_neg (by omega : ¬s.length ≠ t.length)]

/-- Witness for C5: the claim's own example, `Bytes([1,2]) < Bytes([0,0,0])`
by the length rule, and an equal-length lexical comparison. -/
theorem c5_strings_length_first_witness :
    Value.cmp (.Bytes [1, 2]) (.Bytes [0, 0, 0]) = .ok .lt ∧
    Value.cmp (.Text [97]) (.Text [98]) = .ok (bytesCmp [97] [98]) :=
  ⟨((c5_strings_length_first [1, 2] [0, 0, 0]).1 (by decide)).1,
   ((c5_strings_length_first [97] [98]).2 (by decide)).2⟩

/-- C6: values denoting the same non-negative number compare `Equal` across
all three integer variants, and lifting a `u8` through `From<u8>` agrees with
the corresponding `UnsignedInteger`. -/
theorem c6_numeric_equivalence :
    ∀ n : Nat, n < 2 ^ 63 →
      Value.cmp (.UnsignedInteger n) (.SignedInteger (n : Int)) = .ok .eq ∧
      Value.cmp (.SignedInteger (n : Int)) (.LargeSignedInteger (n : Int)) = .ok .eq ∧
      Value.cmp (.UnsignedInteger n) (.LargeSignedInteger (n : Int)) = .ok .eq ∧
      (n < 256 → Value.cmp (from_u8 n) (.UnsignedInteger n) = .ok .eq) := by
  intro n _
  have habs : absCmpI128 (n : Int) (n : Int) = .ok .eq := by
    unfold absCmpI128
    rw [absI128_natCast]
    dsimp only
    rw [ordCmpInt_self]
  refine ⟨?_, ?_, ?_, fun _ => ?_⟩
  · unfold Value.cmp
    dsimp only [Value.major_type]
    rw [if_pos (Int.natCast_nonneg n)]
    dsimp only
    rw [if_neg (fun hh => hh rfl)]
    exact habs
  · unfold Value.cmp
    dsimp only [Value.major_type]
    rw [if_pos (Int.natCast_nonneg n)]
    dsimp only
    rw [if_neg (fun hh => hh rfl)]
    exact habs
  · unfold Value.cmp
    dsimp only [Value.major_type]
    rw [if_pos (Int.natCast_nonneg n)]
    dsimp only
    rw [if_neg (fun hh => hh rfl)]
    exact habs
  · unfold from_u8 Value.cmp
    dsimp only [Value.major_type]
    rw [if_neg (fun hh => hh rfl), ordCmpNat_self]

/-- Witness for C6 at the claim's inputs 5 and 200. -/
theorem c6_numeric_equivalence_witness :
    Value.cmp (.UnsignedInteger 5) (.SignedInteger 5) = .ok .eq ∧
    Value.cmp (.SignedInteger 5) (.LargeSignedInteger 5) = .ok .eq ∧
    Value.cmp (from_u8 200) (.UnsignedInteger 200) = .ok .eq :=
  ⟨(c6_numeric_equivalence 5 (by decide)).1,
   (c6_numeric_equivalence 5 (by decide)).2.1,
   (c6_numeric_equivalence 200 (by decide)).2.2.2 (by decide)⟩

/-- C9: the comparator never converts a fault into an ordering — a
serialization failure of either operand in the fallback (equal-length arrays
or maps) aborts the comparison with a hard failure (the left operand's error
when it fails, otherwise the right operand's), never returning `Less`,
`Equal` or `Greater`; the hidden variant aborts classification immediately,
and no comparison against the hidden variant ever returns an ordering. -/
theorem c9_faults_abort :
    (∀ (xs ys : ValueList) (e : Err), xs.length = ys.length →
      to_vec (.Array xs) = .error e → Value.cmp (.Array xs) (.Array ys) = .error e) ∧
    (∀ (ps qs : ValuePairList) (e : Err), ps.length = qs.length →
      to_vec (.Map ps) = .error e → Value.cmp (.Map ps) (.Map qs) = .error e) ∧
    (∀ b : Value, Value.cmp .Hidden b = .error .hiddenVariant) ∧
    (∀ (a : Value) (o : Ordering), Value.cmp a .Hidden ≠ .ok o) ∧
    (∀ (xs ys : ValueList) (s : List Nat) (e : Err), xs.length = ys.length →
      to_vec (.Array xs) = .ok s → to_vec (.Array ys) = .error e →
      Value.cmp (.Array xs) (.Array ys) = .error e) ∧
    (∀ (ps qs : ValuePairList) (s : List Nat) (e : Err), ps.length = qs.length →
      to_vec (.Map ps) = .ok s → to_vec (.Map qs) = .error e →
      Value.cmp (.Map ps) (.Map qs) = .error e) ∧
    (∀ (xs ys : ValueList) (o : Ordering), xs.length = ys.length →
      (∃ e, to_vec (.Array xs) = .error e) ∨ (∃ e, to_vec (.Array ys) = .error e) →
      Value.cmp (.Array xs) (.Array ys) ≠ .ok o) ∧
    (∀ (ps qs : ValuePairList) (o : Ordering), ps.length = qs.length →
      (∃ e, to_vec (.Map ps) = .error e) ∨ (∃ e, to_vec (.Map qs) = .error e) →
      Value.cmp (.Map ps) (.Map qs) ≠ .ok o) := by
  refine ⟨fun xs ys e hlen herr => ?_, fun ps qs e hlen herr => ?_, fun b => ?_,
    fun a o h => ?_, fun xs ys s e hlen hok herr => ?_, fun ps qs s e hlen hok herr => ?_,
    fun xs ys o hlen hf h => ?_, fun ps qs o hlen hf h => ?_⟩
  · unfold Value.cmp
    dsimp only [Value.major_type]
    rw [if_neg (fun hh => hh rfl), if_neg (by omega : ¬xs.length ≠ ys.length)]
    unfold serCmp
    rw [herr]
    cases to_vec (.Array ys) <;> rfl
  · unfold Value.cmp
    dsimp only [Value.major_type]
    rw [if_neg (fun hh => hh rfl), if_neg (by omega : ¬ps.length ≠ qs.length)]
    unfold serCmp
    rw [herr]
    cases to_vec (.Map qs) <;> rfl
  · unfold Value.cmp
    cases hb : b.major_type <;> rfl
  · unfold Value.cmp at h
    cases hma : a.major_type <;> rw [hma] at h <;> dsimp only [Value.major_type] at h <;>
      cases h
  · unfold Value.cmp
    dsimp only [Value.major_type]
    rw [if_neg (fun hh => hh rfl), if_neg (by omega : ¬xs.length ≠ ys.length)]
    unfold serCmp
    rw [hok, herr]
  · unfold Value.cmp
    dsimp only [Value.major_type]
    rw [if_neg (fun hh => hh rfl), if_neg (by omega : ¬ps.length ≠ qs.length)]
    unfold serCmp
    rw [hok, herr]
  · unfold Value.cmp at h
    dsimp only [Value.major_type] at h
    rw [if_neg (fun hh => hh rfl), if_neg (by omega : ¬xs.length ≠ ys.length)] at h
    unfold serCmp at h
    rcases hf with ⟨e, he⟩ | ⟨e, he⟩
    · rw [he] at h
      cases h2 : to_vec (.Array ys) <;> rw [h2] at h <;> cases h
    · cases h1 : to_vec (.Array xs) <;> rw [h1, he] at h <;> cases h
  · unfold Value.cmp at h
    dsimp only [Value.major_type] at h
    rw [if_neg (fun hh => hh rfl), if_neg (by omega : ¬ps.length ≠ qs.length)] at h
    unfold serCmp at h
    rcases hf with ⟨e, he⟩ | ⟨e, he⟩
    · rw [he] at h
      cases h2 : to_vec (.Map qs) <;> rw [h2] at h <;> cases h
    · cases h1 : to_vec (.Map ps) <;> rw [h1, he] at h <;> cases h

/-- Witness for C9: an equal-length array pair whose left operand contains an
out-of-range `LargeSignedInteger(-2^70)` aborts with `EncodeError`, the same
with only the right operand unserializable, and the hidden variant aborts
classification. -/
theorem c9_faults_abort_witness :
    Value.cmp (.Array (.cons (.LargeSignedInteger (-(2 ^ 70))) .nil))
        (.Array (.cons .Null .nil)) = .error .encodeError ∧
    Value.cmp (.Array (.cons .Null .nil))
        (.Array (.cons (.LargeSignedInteger (-(2 ^ 70))) .nil)) = .error .encodeError ∧
    Value.cmp .Hidden (.UnsignedInteger 0) = .error .hiddenVariant :=
  ⟨c9_faults_abort.1 (.cons (.LargeSignedInteger (-(2 ^ 70))) .nil) (.cons .Null .nil)
      .encodeError (by decide) (by decide),
   c9_faults_abort.2.2.2.2.1 (.cons .Null .nil)
      (.cons (.LargeSignedInteger (-(2 ^ 70))) .nil) [129, 246] .encodeError
      (by decide) (by decide) (by decide),
   c9_faults_abort.2.2.1 (.UnsignedInteger 0)⟩

/-- C7: map insertion (modelled from the spec's `BTreeMap` semantics, driven
by the source comparator) keeps keys in strictly ascending canonical order —
hence duplicate-free — a later insertion at an equal key overwrites the
stored value, and inserting `{"b": 1, "a": 2}` in that order yields the key
order `["a", "b"]`. -/
theorem c7_map_canonical_order :
    (∀ (l : ValuePairList) (k v : Value) (r : ValuePairList),
      sortedKeys l = true → mapInsert l k v = .ok r → sortedKeys r = true) ∧
    (∀ (l : ValuePairList) (k v k0 v0 : Value) (r : ValuePairList),
      sortedKeys l = true → hasPair l k0 v0 → Value.cmp k k0 = .ok .eq →
      mapInsert l k v = .ok r → hasPair r k0 v) ∧
    (mapInsert .nil (.Text [98]) (.UnsignedInteger 1) =
        .ok (.cons (.Text [98]) (.UnsignedInteger 1) .nil) ∧
      mapInsert (.cons (.Text [98]) (.UnsignedInteger 1) .nil) (.Text [97])
          (.UnsignedInteger 2) =
        .ok (.cons (.Text [97]) (.UnsignedInteger 2)
          (.cons (.Text [98]) (.UnsignedInteger 1) .nil)) ∧
      keysOf (.cons (.Text [97]) (.UnsignedInteger 2)
          (.cons (.Text [98]) (.UnsignedInteger 1) .nil)) =
        [.Text [97], .Text [98]]) :=
  ⟨fun _ _ _ _ hs h => mapInsert_sorted hs h,
   fun _ _ _ _ _ _ hs hp he h => mapInsert_overwrite hs hp he h,
   rfl, rfl, rfl⟩

/-- Witness for C7: the sortedness clause applied to the insertion of `"a"`
into `{"b": 1}`, and the overwrite clause applied to re-inserting the key
`"b"` with a new value. -/
theorem c7_map_canonical_order_witness :
    sortedKeys (.cons (.Text [97]) (.UnsignedInteger 2)
      (.cons (.Text [98]) (.UnsignedInteger 1) .nil)) = true ∧
    hasPair (.cons (.Text [98]) (.UnsignedInteger 9) .nil) (.Text [98]) (.UnsignedInteger 9) :=
  ⟨c7_map_canonical_order.1 (.cons (.Text [98]) (.UnsignedInteger 1) .nil) (.Text [97])
      (.UnsignedInteger 2) _ (by decide) rfl,
   c7_map_canonical_order.2.1 (.cons (.Text [98]) (.UnsignedInteger 1) .nil) (.Text [98])
      (.UnsignedInteger 9) (.Text [98]) (.UnsignedInteger 1) _ (by decide)
      (Or.inl ⟨rfl, rfl⟩) (by decide) rfl⟩
end CborSpec
